import Mathlib

/-!
Verification development for the coastline tiling core
(`generator/coastlines_generator.cpp`).

The file gives a shallow embedding of the source file's data model and
operations and proves the specified properties about them.  Entities that
live outside the embedded source file (the `m2` geometry primitives, the
cell-id arithmetic, the spatial tree, the feature merger, the quantizer)
are modelled from the specification; each such definition says so in its
doc comment.  Machine integers (`int32_t` coordinates, `size_t` counts)
are modelled as unbounded `Int`/`Nat`: none of the verified properties
exercises overflow.  The real-valued mercator coordinates (`double`) are
represented by rationals; the core only passes them through the quantizer
functions, which are kept as parameters.
-/

/-- Lattice point `m2::PointI`: a pair of signed integers produced by the
quantizer. -/
structure PointI where
  x : Int
  y : Int
deriving DecidableEq, Repr, Inhabited

/-- Mercator point `m2::PointD`; real coordinates modelled as rationals. -/
abbrev PointD := ℚ × ℚ

/-- Integer rectangle `m2::RectI` with the usual four bounds. -/
structure RectI where
  minX : Int
  maxX : Int
  minY : Int
  maxY : Int
deriving DecidableEq, Repr, Inhabited

/-- Modelled from the spec: a fresh `m2::Rect` is "empty", carrying the
inverted `int32_t` sentinel bounds that any added point shrinks past. -/
def RectI.emptyRect : RectI := ⟨2147483647, -2147483648, 2147483647, -2147483648⟩

/-- Modelled from the spec: extend a bounding rectangle by one point, as
`m2::Rect::Add` does when a region grows. -/
def RectI.addPoint (r : RectI) (p : PointI) : RectI :=
  ⟨min r.minX p.x, max r.maxX p.x, min r.minY p.y, max r.maxY p.y⟩

/-- Modelled from the spec (§4.B `is_rect_inside`): containment test on
bounding rectangles only; `a.IsRectInside b` holds iff `b` lies inside `a`. -/
def RectI.IsRectInside (a b : RectI) : Bool :=
  decide (a.minX ≤ b.minX) && decide (b.maxX ≤ a.maxX) &&
  decide (a.minY ≤ b.minY) && decide (b.maxY ≤ a.maxY)

/-- Modelled from the spec (§4.D): rectangle overlap test used by the
spatial tree's range query. -/
def RectI.IsIntersect (a b : RectI) : Bool :=
  decide (a.minX ≤ b.maxX) && decide (b.minX ≤ a.maxX) &&
  decide (a.minY ≤ b.maxY) && decide (b.minY ≤ a.maxY)

/-- Modelled from the spec (§4.B): `m2::RegionI`, an ordered sequence of
lattice points forming a polygon with implicit closing edge. -/
structure RegionI where
  points : List PointI
deriving DecidableEq, Repr, Inhabited

/-- Modelled from the spec: append a point to a region. -/
def RegionI.AddPoint (r : RegionI) (p : PointI) : RegionI := ⟨r.points ++ [p]⟩

/-- Modelled from the spec: the cached bounding rectangle that `AddPoint`
maintains, i.e. the fold of `RectI.addPoint` over the points. -/
def RegionI.GetRect (r : RegionI) : RectI := r.points.foldl RectI.addPoint RectI.emptyRect

/-- Modelled from the spec: number of points of a region. -/
def RegionI.GetPointsCount (r : RegionI) : Nat := r.points.length

/-- Embedding of `GetLimitRect` (coastlines_generator.cpp:30); the source
converts the integer rect to an equal-valued `RectD`, which the model keeps
as the integer rect itself. -/
def GetLimitRect (rgn : RegionI) : RectI := rgn.GetRect

/-- Modelled from the spec (§6): the slice of the external `FeatureBuilder`
interface the core touches. -/
structure FeatureBuilder where
  isGeometryClosed : Bool := false
  polygons : List (List PointD) := []
  firstOsmId : Nat := 0
  lastOsmId : Nat := 0
  coastCell : Option Nat := none
  isArea : Bool := false
  types : List Nat := []
deriving DecidableEq, Repr, Inhabited

/-- Modelled from the spec: total point count over all polygons. -/
def FeatureBuilder.GetPointsCount (fb : FeatureBuilder) : Nat :=
  (fb.polygons.map List.length).sum

/-- Modelled from the spec: number of polygons. -/
def FeatureBuilder.GetPolygonsCount (fb : FeatureBuilder) : Nat := fb.polygons.length

/-- Modelled from the spec: append one polygon ring. -/
def FeatureBuilder.AddPolygon (fb : FeatureBuilder) (poly : List PointD) : FeatureBuilder :=
  { fb with polygons := fb.polygons ++ [poly] }

/-- Modelled from the spec (§4.D): the `m4::Tree` spatial index, as the
insertion-ordered list of (region, bounding rect) entries; the spec fixes
only the contract (visit every region whose rect intersects the query, in a
deterministic order), which this list realizes. -/
abbrev SpatialTree := List (RegionI × RectI)

/-- Modelled from the spec: insert a region keyed by its limit rect. -/
def SpatialTree.Add (t : SpatialTree) (rgn : RegionI) (rect : RectI) : SpatialTree :=
  t ++ [(rgn, rect)]

/-- Modelled from the spec (§4.D): visit, in insertion order, every indexed
region whose bounding rectangle intersects the query rectangle. -/
def SpatialTree.ForEachInRect (t : SpatialTree) (q : RectI) : List RegionI :=
  (t.filter (fun e => RectI.IsIntersect e.2 q)).map Prod.fst

/-- Statement-side companion used by the amended C2: the tree entries that
`AddRegionToTree` produces for one polygon — nothing for an empty polygon,
otherwise one region holding the polygon's points with the FIRST point
dropped (the leading duplicate of the closing vertex). -/
def polyEntry (d2i : PointD → PointI) (polygon : List PointD) : SpatialTree :=
  if polygon.isEmpty then []
  else [(⟨(polygon.drop 1).map d2i⟩, GetLimitRect ⟨(polygon.drop 1).map d2i⟩)]

/-- Statement-side companion used by the amended C2: all regions inserted
for a polygon list, in order. -/
def insertedRegions (d2i : PointD → PointI) (polys : List (List PointD)) : SpatialTree :=
  (polys.map (polyEntry d2i)).flatten

/-- Embedding of `CoastlineFeaturesGenerator::AddRegionToTree`
(coastlines_generator.cpp:43): for each non-empty polygon of the builder,
grow a region by `AddPoint` over the polygon's points starting at the
second one (`std::next(std::cbegin(polygon))`), then add it to the tree
under its limit rect.  The quantizer `D2I` is the parameter `d2i`. -/
def CoastlineFeaturesGenerator.AddRegionToTree (d2i : PointD → PointI)
    (tree : SpatialTree) (fb : FeatureBuilder) : SpatialTree :=
  fb.polygons.foldl
    (fun t polygon =>
      if polygon.isEmpty then t
      else
        let rgn : RegionI :=
          (polygon.drop 1).foldl (fun r p => r.AddPoint (d2i p)) ⟨[]⟩
        SpatialTree.Add t rgn (GetLimitRect rgn))
    tree

/-- State of the generator façade: the spatial tree plus the feature
builders so far handed to the external merger (the merger itself is
outside the source file; the model records its input stream). -/
structure GenState where
  tree : SpatialTree := []
  merger : List FeatureBuilder := []
deriving DecidableEq, Repr, Inhabited

/-- Embedding of `CoastlineFeaturesGenerator::Process`
(coastlines_generator.cpp:60): closed geometry goes to the tree, open
geometry is handed to the merger. -/
def CoastlineFeaturesGenerator.Process (d2i : PointD → PointI)
    (s : GenState) (fb : FeatureBuilder) : GenState :=
  if fb.isGeometryClosed then
    { s with tree := CoastlineFeaturesGenerator.AddRegionToTree d2i s.tree fb }
  else
    { s with merger := s.merger ++ [fb] }

/-- State of the `DoAddToTree` emitter (coastlines_generator.cpp:70): the
tree being extended, the two counters, and — modelling the two `LOG`
statements — the reported (first way id, last way id, point count) triples
for the not-merged coastlines. -/
structure DoAddToTreeState where
  tree : SpatialTree
  notMergedCoastsCount : Nat
  totalNotMergedCoastsPoints : Nat
  log : List (Nat × Nat × Nat)
deriving DecidableEq, Repr, Inhabited

/-- Embedding of `DoAddToTree::operator()` (coastlines_generator.cpp:80):
closed builders are inserted into the tree; open ones are reported with
their OSM way-id range and point count and counted, with no failure. -/
def DoAddToTree.visit (d2i : PointD → PointI)
    (st : DoAddToTreeState) (fb : FeatureBuilder) : DoAddToTreeState :=
  if fb.isGeometryClosed then
    { st with tree := CoastlineFeaturesGenerator.AddRegionToTree d2i st.tree fb }
  else
    { st with
      notMergedCoastsCount := st.notMergedCoastsCount + 1
      totalNotMergedCoastsPoints := st.totalNotMergedCoastsPoints + fb.GetPointsCount
      log := st.log ++ [(fb.firstOsmId, fb.lastOsmId, fb.GetPointsCount)] }

/-- Embedding of the `Finish` body (coastlines_generator.cpp:116) up to the
return value: the final `DoAddToTree` state after the merger flush.  The
external merger's `DoMerge` is the parameter `doMerge`, Modelled from the
spec §4.C: it turns the stream of builders the merger received into the
emitted stream of closed rings plus unmerged open remainders. -/
def CoastlineFeaturesGenerator.FinishState (d2i : PointD → PointI)
    (doMerge : List FeatureBuilder → List FeatureBuilder) (s : GenState) : DoAddToTreeState :=
  (doMerge s.merger).foldl (DoAddToTree.visit d2i) ⟨s.tree, 0, 0, []⟩

/-- Embedding of `CoastlineFeaturesGenerator::Finish`
(coastlines_generator.cpp:116): flush the merger through `DoAddToTree`;
return `false` iff some coastline stayed open, together with the final
tree (mutated in place in the source). -/
def CoastlineFeaturesGenerator.Finish (d2i : PointD → PointI)
    (doMerge : List FeatureBuilder → List FeatureBuilder) (s : GenState) : Bool × SpatialTree :=
  ((CoastlineFeaturesGenerator.FinishState d2i doMerge s).notMergedCoastsCount == 0,
    (CoastlineFeaturesGenerator.FinishState d2i doMerge s).tree)

/-- State of `DoDifference` (coastlines_generator.cpp:133): the source
rect of the cell envelope, the accumulated result regions, and the point
buffer used while emitting. -/
structure DoDiffState where
  m_src : RectI
  m_res : List RegionI
  m_points : List PointD
deriving DecidableEq, Repr, Inhabited

/-- Embedding of the `DoDifference` constructor
(coastlines_generator.cpp:140): result list starts with the envelope
region, source rect is its bounding rect. -/
def DoDifference.init (rgn : RegionI) : DoDiffState := ⟨rgn.GetRect, [rgn], []⟩

/-- Embedding of `DoDifference::operator()(RegionT const &)`
(coastlines_generator.cpp:146).  The external primitive
`m2::IntersectRegions(A, B, out)` is the parameter `ir`, Modelled from the
spec §4.B: `ir A B` is the list of regions the primitive appends to `out`,
so the call on `(m_res.front(), r, m_res)` appends `ir` of the current
front and `r` to the result list. -/
def DoDifference.visit (ir : RegionI → RegionI → List RegionI)
    (s : DoDiffState) (r : RegionI) : DoDiffState :=
  if s.m_src.IsRectInside r.GetRect then { s with m_res := s.m_res ++ [r] }
  else { s with m_res := s.m_res ++ ir s.m_res.headI r }

/-- Embedding of `DoDifference::GetPointsCount`
(coastlines_generator.cpp:162): total points over the result regions. -/
def DoDiffState.GetPointsCount (s : DoDiffState) : Nat :=
  (s.m_res.map RegionI.GetPointsCount).sum

/-- Embedding of `DoDifference::AssignGeometry`
(coastlines_generator.cpp:170) together with the point visitor
`operator()(PointT const &)` (line 156): each result region becomes one
polygon of the builder, its points converted back through the inverse
quantizer `i2d` (`PointUToPointD`). -/
def DoDiffState.AssignGeometry (i2d : PointI → PointD)
    (s : DoDiffState) (fb : FeatureBuilder) : FeatureBuilder :=
  s.m_res.foldl (fun b r => b.AddPolygon (r.points.map i2d)) fb

/-- Modelled from the spec (§3 CellId): quad-tree cell with a level and the
bit-packed path from the root; `m2::CellId` lives outside the source file. -/
structure Cell where
  level : Nat
  bits : Nat
deriving DecidableEq, Repr, Inhabited

/-- Modelled from the spec: a cell has exactly four children
(`MAX_CHILDREN = 4`), each one level deeper. -/
def Cell.Child (c : Cell) (i : Nat) : Cell := ⟨c.level + 1, 4 * c.bits + i⟩

/-- Modelled from the spec: level `L` contains `4 ^ L` cells. -/
def Cell.TotalCellsOnLevel (L : Nat) : Nat := 4 ^ L

/-- Modelled from the spec: build the cell with the given packed path at
the given level. -/
def Cell.FromBitsAndLevel (i L : Nat) : Cell := ⟨L, i⟩

/-- Modelled from the spec: 64-bit serialization of a cell relative to a
reference depth.  The claims only pass the value through, so the model
uses a level-order index and ignores the reference depth. -/
def Cell.ToInt64 (c : Cell) (_depth : Nat) : Nat := (4 ^ c.level - 1) / 3 + c.bits

/-- Embedding of `RegionInCellSplitter::kStartLevel`
(coastlines_generator.cpp:190). -/
def kStartLevel : Nat := 4

/-- Embedding of `RegionInCellSplitter::kHighLevel`
(coastlines_generator.cpp:191). -/
def kHighLevel : Nat := 10

/-- Embedding of `RegionInCellSplitter::kMaxPoints`
(coastlines_generator.cpp:192). -/
def kMaxPoints : Nat := 20000

/-- Embedding of the corner array built in `ProcessCell`
(coastlines_generator.cpp:244): the four mercator corners
`(minX,minY), (minX,maxY), (maxX,maxY), (maxX,minY)` of the cell, whose
bounds come from the external `CellIdConverter` kept as the parameter
`bounds` returning `(minX, minY, maxX, maxY)`. -/
def cellCorners (bounds : Cell → ℚ × ℚ × ℚ × ℚ) (c : Cell) : List PointD :=
  [((bounds c).1, (bounds c).2.1), ((bounds c).1, (bounds c).2.2.2),
   ((bounds c).2.2.1, (bounds c).2.2.2), ((bounds c).2.2.1, (bounds c).2.1)]

/-- Embedding of the envelope region `rectR` of `ProcessCell`
(coastlines_generator.cpp:246): the four quantized corners. -/
def cellEnvelope (d2i : PointD → PointI) (bounds : Cell → ℚ × ℚ × ℚ × ℚ)
    (c : Cell) : RegionI :=
  ⟨(cellCorners bounds c).map d2i⟩

/-- Embedding of the differencing part of `ProcessCell`
(coastlines_generator.cpp:250): start from the envelope and fold the
`DoDifference` visitor over the indexed regions intersecting the
envelope's limit rect, in tree iteration order. -/
def cellDifference (ir : RegionI → RegionI → List RegionI) (d2i : PointD → PointI)
    (bounds : Cell → ℚ × ℚ × ℚ × ℚ) (tree : SpatialTree) (c : Cell) : DoDiffState :=
  (SpatialTree.ForEachInRect tree (GetLimitRect (cellEnvelope d2i bounds c))).foldl
    (DoDifference.visit ir) (DoDifference.init (cellEnvelope d2i bounds c))

/-- Weight of a queued cell: an upper bound on the number of worker steps
its whole subtree can still cost.  A cell at level `kHighLevel` or deeper
is never subdivided, so the weight shrinks fivefold per level. -/
def cellWeight (c : Cell) : Nat := 5 ^ (kHighLevel + 1 - c.level)

/-- Total weight of a work queue; it strictly decreases at every worker
step, which bounds the loop length. -/
def queueMeasure (q : List Cell) : Nat := (q.map cellWeight).sum

/-- Embedding of the sequential behaviour of the worker loop
`RegionInCellSplitter::operator()` (coastlines_generator.cpp:261) with
`ProcessCell` (line 237) inlined, as fuel-bounded structural recursion:
pop the front cell, compute its difference; if the cell is below
`kHighLevel` and the result carries at least `kMaxPoints` points, discard
the result and push the four children at the back of the queue, otherwise
emit `(cell, result)`.  `queueMeasure` is a proven-sufficient fuel bound
(`runQueueFuel_congr`), so the `0`-fuel clause is never reached from
`runQueue`. -/
def RegionInCellSplitter.runQueueFuel (ir : RegionI → RegionI → List RegionI)
    (d2i : PointD → PointI) (bounds : Cell → ℚ × ℚ × ℚ × ℚ) (tree : SpatialTree) :
    Nat → List Cell → List (Cell × DoDiffState)
  | 0, _ => []
  | _ + 1, [] => []
  | fuel + 1, c :: rest =>
    let dd := cellDifference ir d2i bounds tree c
    if c.level < kHighLevel ∧ kMaxPoints ≤ dd.GetPointsCount then
      RegionInCellSplitter.runQueueFuel ir d2i bounds tree fuel
        (rest ++ [c.Child 0, c.Child 1, c.Child 2, c.Child 3])
    else
      (c, dd) :: RegionInCellSplitter.runQueueFuel ir d2i bounds tree fuel rest

/-- The worker loop run to completion on a given queue. -/
def RegionInCellSplitter.runQueue (ir : RegionI → RegionI → List RegionI)
    (d2i : PointD → PointI) (bounds : Cell → ℚ × ℚ × ℚ × ℚ) (tree : SpatialTree)
    (q : List Cell) : List (Cell × DoDiffState) :=
  RegionInCellSplitter.runQueueFuel ir d2i bounds tree (queueMeasure q) q

/-- Embedding of the queue seeding in `RegionInCellSplitter::Process`
(coastlines_generator.cpp:217): all cells of the given level, in packed
order. -/
def seedCells (L : Nat) : List Cell :=
  (List.range (Cell.TotalCellsOnLevel L)).map (fun i => Cell.FromBitsAndLevel i L)

/-- Embedding of `RegionInCellSplitter::Process`
(coastlines_generator.cpp:212): seed the queue with every cell at
`kStartLevel` and run the worker loop; the result collects the callback
invocations `(cell, difference)` in order. -/
def RegionInCellSplitter.Process (ir : RegionI → RegionI → List RegionI)
    (d2i : PointD → PointI) (bounds : Cell → ℚ × ℚ × ℚ × ℚ)
    (tree : SpatialTree) : List (Cell × DoDiffState) :=
  RegionInCellSplitter.runQueue ir d2i bounds tree (seedCells kStartLevel)

/-- Modelled from the spec: the classifier's coastline type id; the value
is irrelevant to the claims. -/
def kCoastType : Nat := 0

/-- Embedding of the result callback in `GetFeatures`
(coastlines_generator.cpp:299): set the coast cell tag at reference depth
`kHighLevel + 1`, assign the geometry, mark the feature as an area and add
the coastline type. -/
def buildFeature (i2d : PointI → PointD) (cell : Cell) (dd : DoDiffState) : FeatureBuilder :=
  let fb : FeatureBuilder := { coastCell := some (cell.ToInt64 (kHighLevel + 1)) }
  let fb := dd.AssignGeometry i2d fb
  { fb with isArea := true, types := fb.types ++ [kCoastType] }

/-- Embedding of `CoastlineFeaturesGenerator::GetFeatures`
(coastlines_generator.cpp:291), sequentialized: one output feature per
accepted cell. -/
def CoastlineFeaturesGenerator.GetFeatures (ir : RegionI → RegionI → List RegionI)
    (d2i : PointD → PointI) (i2d : PointI → PointD)
    (bounds : Cell → ℚ × ℚ × ℚ × ℚ) (tree : SpatialTree) : List FeatureBuilder :=
  (RegionInCellSplitter.Process ir d2i bounds tree).map (fun p => buildFeature i2d p.1 p.2)

/-- Shared state of the splitter worker pool (coastlines_generator.cpp:195):
the task queue `listTasks` and the cells currently being processed (the
source only keeps their number `inWork`; the model keeps the cells so the
children pushed on completion are determined). -/
structure SplitterSysState where
  listTasks : List Cell
  inFlight : List Cell
deriving DecidableEq, Repr

/-- Transition relation of the worker loop
`RegionInCellSplitter::operator()` (coastlines_generator.cpp:261), one
label per atomic region of the mutex: `take` pops the queue front and
increments `inWork`; `complete` finishes one in-flight cell, pushing its
four children at the back of the queue exactly when `ProcessCell` rejected
it — the cell is below `kHighLevel` and its difference is over budget,
abstracted into the predicate `tooBig` — and decrements `inWork`. -/
inductive SplitterStep (tooBig : Cell → Bool) : SplitterSysState → SplitterSysState → Prop where
  | take (c : Cell) (rest fl : List Cell) :
      SplitterStep tooBig ⟨c :: rest, fl⟩ ⟨rest, c :: fl⟩
  | complete (c : Cell) (q fl : List Cell) (h : c ∈ fl) :
      SplitterStep tooBig ⟨q, fl⟩
        ⟨if c.level < kHighLevel ∧ tooBig c = true then
            q ++ [c.Child 0, c.Child 1, c.Child 2, c.Child 3]
          else q,
         fl.erase c⟩

/-- Embedding of the condition-variable predicate at
coastlines_generator.cpp:267: the wait ends when the queue is non-empty or
no worker is processing a task. -/
def splitterWaitDone (s : SplitterSysState) : Prop :=
  ¬ s.listTasks = [] ∨ s.inFlight.length = 0

/-- Embedding of the worker exit (coastlines_generator.cpp:268): the loop
breaks when the wait has ended and the queue is empty. -/
def workerExits (s : SplitterSysState) : Prop :=
  splitterWaitDone s ∧ s.listTasks = []

/-- Termination measure of the worker pool: five times the total weight of
queued and in-flight cells, plus the queue length to make `take` strictly
decreasing as well. -/
def sysMeasure (s : SplitterSysState) : Nat :=
  5 * (queueMeasure s.listTasks + queueMeasure s.inFlight) + s.listTasks.length

/-- Trivial intersection primitive used to instantiate witnesses: the
external boolean op may return no pieces. -/
def irTriv : RegionI → RegionI → List RegionI := fun _ _ => []

/-- Trivial quantizer used to instantiate witnesses. -/
def d2iTriv : PointD → PointI := fun _ => ⟨0, 0⟩

/-- Quantizer taking rational numerators, used where a witness needs to
tell points apart. -/
def d2iNum : PointD → PointI := fun p => ⟨p.1.num, p.2.num⟩

/-- Trivial inverse quantizer used to instantiate witnesses. -/
def i2dTriv : PointI → PointD := fun _ => ((0 : ℚ), (0 : ℚ))

/-- Trivial cell-bounds converter used to instantiate witnesses. -/
def boundsTriv : Cell → ℚ × ℚ × ℚ × ℚ := fun _ => (0, 0, 0, 0)

/-- Sample envelope region used by concrete counterexamples: the four
corners of the square `[0,10] × [0,10]`. -/
def sampleEnv : RegionI := ⟨[⟨0, 0⟩, ⟨0, 10⟩, ⟨10, 10⟩, ⟨10, 0⟩]⟩

/-- Sample region whose bounding rect sticks out of `sampleEnv`. -/
def outsideRegion : RegionI := ⟨[⟨-5, -5⟩, ⟨-5, 5⟩, ⟨5, 5⟩]⟩

/-- Sample region whose bounding rect lies inside `sampleEnv`. -/
def insideRegion : RegionI := ⟨[⟨1, 1⟩, ⟨1, 2⟩, ⟨2, 2⟩]⟩

/-- Sample intersection primitive returning one fixed piece, used to watch
where the output of the boolean op lands in the result list. -/
def irPiece : RegionI → RegionI → List RegionI :=
  fun _ _ => [⟨[⟨0, 0⟩, ⟨1, 0⟩, ⟨0, 1⟩]⟩]

/-- Sample closed feature builder holding one square ring whose last point
repeats the first. -/
def fbSquare : FeatureBuilder :=
  { isGeometryClosed := true
    polygons := [[((0 : ℚ), (0 : ℚ)), ((1 : ℚ), (0 : ℚ)), ((1 : ℚ), (1 : ℚ)), ((0 : ℚ), (0 : ℚ))]] }

theorem queueMeasure_nil : queueMeasure [] = 0 := rfl

theorem queueMeasure_cons (c : Cell) (q : List Cell) :
    queueMeasure (c :: q) = cellWeight c + queueMeasure q := by
  simp [queueMeasure]

theorem queueMeasure_append (q₁ q₂ : List Cell) :
    queueMeasure (q₁ ++ q₂) = queueMeasure q₁ + queueMeasure q₂ := by
  simp [queueMeasure]

theorem cellWeight_pos (c : Cell) : 0 < cellWeight c :=
  pow_pos (by norm_num) _

theorem cellWeight_of_lt {c : Cell} (h : c.level < kHighLevel) :
    cellWeight c = 5 * 5 ^ (kHighLevel - c.level) := by
  have he : kHighLevel + 1 - c.level = (kHighLevel - c.level) + 1 := by omega
  simp only [cellWeight, he, pow_succ]
  ring

theorem cellWeight_child {c : Cell} (h : c.level < kHighLevel) (i : Nat) :
    cellWeight (c.Child i) = 5 ^ (kHighLevel - c.level) := by
  simp only [cellWeight, Cell.Child]
  congr 1
  omega

theorem queueMeasure_children {c : Cell} (h : c.level < kHighLevel) :
    queueMeasure [c.Child 0, c.Child 1, c.Child 2, c.Child 3] =
      4 * 5 ^ (kHighLevel - c.level) := by
  simp [queueMeasure, cellWeight_child h]
  ring

theorem queueMeasure_split_lt {c : Cell} (h : c.level < kHighLevel) (rest : List Cell) :
    queueMeasure (rest ++ [c.Child 0, c.Child 1, c.Child 2, c.Child 3]) + 1 ≤
      queueMeasure (c :: rest) := by
  rw [queueMeasure_append, queueMeasure_children h, queueMeasure_cons, cellWeight_of_lt h]
  have hp : 1 ≤ 5 ^ (kHighLevel - c.level) := Nat.one_le_pow _ _ (by norm_num)
  omega

theorem queueMeasure_emit_lt (c : Cell) (rest : List Cell) :
    queueMeasure rest + 1 ≤ queueMeasure (c :: rest) := by
  rw [queueMeasure_cons]
  have := cellWeight_pos c
  omega

theorem queueMeasure_eq_zero {q : List Cell} (h : queueMeasure q = 0) : q = [] := by
  cases q with
  | nil => rfl
  | cons c rest =>
    rw [queueMeasure_cons] at h
    have := cellWeight_pos c
    omega

theorem runQueueFuel_nil (ir : RegionI → RegionI → List RegionI)
    (d2i : PointD → PointI) (bounds : Cell → ℚ × ℚ × ℚ × ℚ) (tree : SpatialTree)
    (f : Nat) : RegionInCellSplitter.runQueueFuel ir d2i bounds tree f [] = [] := by
  cases f <;> rfl

theorem runQueueFuel_congr (ir : RegionI → RegionI → List RegionI)
    (d2i : PointD → PointI) (bounds : Cell → ℚ × ℚ × ℚ × ℚ) (tree : SpatialTree) :
    ∀ f₁ : Nat, ∀ q : List Cell, ∀ f₂ : Nat,
      queueMeasure q ≤ f₁ → queueMeasure q ≤ f₂ →
      RegionInCellSplitter.runQueueFuel ir d2i bounds tree f₁ q =
        RegionInCellSplitter.runQueueFuel ir d2i bounds tree f₂ q := by
  intro f₁
  induction f₁ with
  | zero =>
    intro q f₂ h₁ _
    have hq : q = [] := queueMeasure_eq_zero (Nat.le_zero.mp h₁)
    subst hq
    rw [runQueueFuel_nil, runQueueFuel_nil]
  | succ f ih =>
    intro q f₂ h₁ h₂
    cases q with
    | nil => rw [runQueueFuel_nil, runQueueFuel_nil]
    | cons c rest =>
      have hpos : 1 ≤ queueMeasure (c :: rest) := by
        rw [queueMeasure_cons]
        have := cellWeight_pos c
        omega
      obtain ⟨f₂', rfl⟩ : ∃ k, f₂ = k + 1 := by
        cases f₂ with
        | zero => omega
        | succ k => exact ⟨k, rfl⟩
      simp only [RegionInCellSplitter.runQueueFuel]
      by_cases hc : c.level < kHighLevel ∧
          kMaxPoints ≤ (cellDifference ir d2i bounds tree c).GetPointsCount
      · rw [if_pos hc, if_pos hc]
        have hm := queueMeasure_split_lt hc.1 rest
        exact ih _ _ (by omega) (by omega)
      · rw [if_neg hc, if_neg hc]
        have hm := queueMeasure_emit_lt c rest
        rw [ih rest f₂' (by omega) (by omega)]

theorem runQueue_nil (ir : RegionI → RegionI → List RegionI)
    (d2i : PointD → PointI) (bounds : Cell → ℚ × ℚ × ℚ × ℚ) (tree : SpatialTree) :
    RegionInCellSplitter.runQueue ir d2i bounds tree [] = [] := rfl

theorem runQueue_cons_split (ir : RegionI → RegionI → List RegionI)
    (d2i : PointD → PointI) (bounds : Cell → ℚ × ℚ × ℚ × ℚ) (tree : SpatialTree)
    (c : Cell) (rest : List Cell)
    (h : c.level < kHighLevel ∧
      kMaxPoints ≤ (cellDifference ir d2i bounds tree c).GetPointsCount) :
    RegionInCellSplitter.runQueue ir d2i bounds tree (c :: rest) =
      RegionInCellSplitter.runQueue ir d2i bounds tree
        (rest ++ [c.Child 0, c.Child 1, c.Child 2, c.Child 3]) := by
  unfold RegionInCellSplitter.runQueue
  have hm := queueMeasure_split_lt h.1 rest
  obtain ⟨m, hmeq⟩ : ∃ k, queueMeasure (c :: rest) = k + 1 := by
    have := queueMeasure_emit_lt c rest
    cases hq : queueMeasure (c :: rest) with
    | zero => omega
    | succ k => exact ⟨k, rfl⟩
  rw [hmeq]
  simp only [RegionInCellSplitter.runQueueFuel]
  rw [if_pos h]
  exact runQueueFuel_congr ir d2i bounds tree m _ _ (by omega) le_rfl

theorem runQueue_cons_emit (ir : RegionI → RegionI → List RegionI)
    (d2i : PointD → PointI) (bounds : Cell → ℚ × ℚ × ℚ × ℚ) (tree : SpatialTree)
    (c : Cell) (rest : List Cell)
    (h : ¬ (c.level < kHighLevel ∧
      kMaxPoints ≤ (cellDifference ir d2i bounds tree c).GetPointsCount)) :
    RegionInCellSplitter.runQueue ir d2i bounds tree (c :: rest) =
      (c, cellDifference ir d2i bounds tree c) ::
        RegionInCellSplitter.runQueue ir d2i bounds tree rest := by
  unfold RegionInCellSplitter.runQueue
  have hm := queueMeasure_emit_lt c rest
  obtain ⟨m, hmeq⟩ : ∃ k, queueMeasure (c :: rest) = k + 1 := by
    cases hq : queueMeasure (c :: rest) with
    | zero => omega
    | succ k => exact ⟨k, rfl⟩
  rw [hmeq]
  simp only [RegionInCellSplitter.runQueueFuel]
  rw [if_neg h]
  rw [runQueueFuel_congr ir d2i bounds tree m rest _ (by omega) le_rfl]

theorem visit_m_res (ir : RegionI → RegionI → List RegionI)
    (s : DoDiffState) (r : RegionI) :
    (DoDifference.visit ir s r).m_res =
      s.m_res ++ (if s.m_src.IsRectInside r.GetRect then [r] else ir s.m_res.headI r) := by
  unfold DoDifference.visit
  by_cases h : s.m_src.IsRectInside r.GetRect
  · rw [if_pos h, if_pos h]
  · rw [if_neg h, if_neg h]

theorem foldl_visit_head (ir : RegionI → RegionI → List RegionI) :
    ∀ rs : List RegionI, ∀ s : DoDiffState, s.m_res ≠ [] →
      (rs.foldl (DoDifference.visit ir) s).m_res ≠ [] ∧
      (rs.foldl (DoDifference.visit ir) s).m_res.headI = s.m_res.headI := by
  intro rs
  induction rs with
  | nil => exact fun s h => ⟨h, rfl⟩
  | cons r rs ih =>
    intro s h
    obtain ⟨a, t, ht⟩ : ∃ a t, s.m_res = a :: t := by
      cases hr : s.m_res with
      | nil => exact absurd hr h
      | cons a t => exact ⟨a, t, rfl⟩
    have hne : (DoDifference.visit ir s r).m_res ≠ [] := by
      rw [visit_m_res, ht]
      simp
    have hh : (DoDifference.visit ir s r).m_res.headI = s.m_res.headI := by
      rw [visit_m_res, ht]
      simp
    obtain ⟨h₁, h₂⟩ := ih (DoDifference.visit ir s r) hne
    exact ⟨h₁, by rw [List.foldl_cons] at *; rw [h₂, hh]⟩

theorem cellEnvelope_points_count (d2i : PointD → PointI)
    (bounds : Cell → ℚ × ℚ × ℚ × ℚ) (c : Cell) :
    (cellEnvelope d2i bounds c).GetPointsCount = 4 := rfl

theorem cellDifference_head (ir : RegionI → RegionI → List RegionI)
    (d2i : PointD → PointI) (bounds : Cell → ℚ × ℚ × ℚ × ℚ)
    (tree : SpatialTree) (c : Cell) :
    (cellDifference ir d2i bounds tree c).m_res ≠ [] ∧
    (cellDifference ir d2i bounds tree c).m_res.headI = cellEnvelope d2i bounds c := by
  unfold cellDifference
  have h := foldl_visit_head ir
    (SpatialTree.ForEachInRect tree (GetLimitRect (cellEnvelope d2i bounds c)))
    (DoDifference.init (cellEnvelope d2i bounds c)) (by simp [DoDifference.init])
  exact ⟨h.1, by rw [h.2]; rfl⟩

theorem cellDifference_points_ge (ir : RegionI → RegionI → List RegionI)
    (d2i : PointD → PointI) (bounds : Cell → ℚ × ℚ × ℚ × ℚ)
    (tree : SpatialTree) (c : Cell) :
    4 ≤ (cellDifference ir d2i bounds tree c).GetPointsCount := by
  obtain ⟨hne, hh⟩ := cellDifference_head ir d2i bounds tree c
  obtain ⟨a, t, ht⟩ : ∃ a t, (cellDifference ir d2i bounds tree c).m_res = a :: t := by
    cases hr : (cellDifference ir d2i bounds tree c).m_res with
    | nil => exact absurd hr hne
    | cons a t => exact ⟨a, t, rfl⟩
  have ha : a = cellEnvelope d2i bounds c := by
    rw [ht] at hh
    simpa using hh
  unfold DoDiffState.GetPointsCount
  rw [ht, ha]
  simp [cellEnvelope_points_count]

theorem assignGeometry_polygons (i2d : PointI → PointD) :
    ∀ rs : List RegionI, ∀ fb : FeatureBuilder,
      (rs.foldl (fun b r => b.AddPolygon (r.points.map i2d)) fb).polygons =
        fb.polygons ++ rs.map (fun r => r.points.map i2d) := by
  intro rs
  induction rs with
  | nil => simp
  | cons r rs ih =>
    intro fb
    rw [List.foldl_cons, ih]
    simp [FeatureBuilder.AddPolygon]

theorem buildFeature_polygons (i2d : PointI → PointD) (cell : Cell) (dd : DoDiffState) :
    (buildFeature i2d cell dd).polygons = dd.m_res.map (fun r => r.points.map i2d) := by
  unfold buildFeature DoDiffState.AssignGeometry
  rw [assignGeometry_polygons]
  rfl

theorem buildFeature_points_count (i2d : PointI → PointD) (cell : Cell) (dd : DoDiffState) :
    (buildFeature i2d cell dd).GetPointsCount = dd.GetPointsCount := by
  unfold FeatureBuilder.GetPointsCount DoDiffState.GetPointsCount
  rw [buildFeature_polygons]
  simp only [List.map_map, Function.comp_def, List.length_map]
  rfl

theorem buildFeature_polygons_count (i2d : PointI → PointD) (cell : Cell) (dd : DoDiffState) :
    (buildFeature i2d cell dd).GetPolygonsCount = dd.m_res.length := by
  unfold FeatureBuilder.GetPolygonsCount
  rw [buildFeature_polygons]
  simp

theorem runQueue_mem_spec (ir : RegionI → RegionI → List RegionI)
    (d2i : PointD → PointI) (bounds : Cell → ℚ × ℚ × ℚ × ℚ) (tree : SpatialTree) :
    ∀ n : Nat, ∀ q : List Cell, queueMeasure q ≤ n →
      (∀ c ∈ q, c.level ≤ kHighLevel) →
      ∀ p ∈ RegionInCellSplitter.runQueue ir d2i bounds tree q,
        p.2 = cellDifference ir d2i bounds tree p.1 ∧
        p.1.level ≤ kHighLevel ∧
        (p.1.level < kHighLevel → p.2.GetPointsCount < kMaxPoints) := by
  intro n
  induction n with
  | zero =>
    intro q hm _ p hp
    have hq : q = [] := queueMeasure_eq_zero (Nat.le_zero.mp hm)
    subst hq
    rw [runQueue_nil] at hp
    exact absurd hp (List.not_mem_nil p)
  | succ n ih =>
    intro q hm hlev p hp
    cases q with
    | nil =>
      rw [runQueue_nil] at hp
      exact absurd hp (List.not_mem_nil p)
    | cons c rest =>
      by_cases hc : c.level < kHighLevel ∧
          kMaxPoints ≤ (cellDifference ir d2i bounds tree c).GetPointsCount
      · rw [runQueue_cons_split ir d2i bounds tree c rest hc] at hp
        have hm' := queueMeasure_split_lt hc.1 rest
        refine ih _ (by omega) ?_ p hp
        intro c' hc'
        rcases List.mem_append.mp hc' with h | h
        · exact hlev c' (List.mem_cons_of_mem c h)
        · have : c'.level = c.level + 1 := by
            simp only [List.mem_cons, List.not_mem_nil, or_false] at h
            rcases h with h | h | h | h <;> (rw [h]; rfl)
          omega
      · rw [runQueue_cons_emit ir d2i bounds tree c rest hc] at hp
        rcases List.mem_cons.mp hp with h | h
        · subst h
          refine ⟨rfl, hlev c (List.mem_cons_self c rest), ?_⟩
          intro hlow
          have hlow' : c.level < kHighLevel := hlow
          by_contra hbig
          have hbig' : ¬ (cellDifference ir d2i bounds tree c).GetPointsCount < kMaxPoints :=
            hbig
          exact hc ⟨hlow', by omega⟩
        · have hm' := queueMeasure_emit_lt c rest
          exact ih rest (by omega)
            (fun c' h' => hlev c' (List.mem_cons_of_mem c h')) p h

theorem region_foldl_addPoint (d2i : PointD → PointI) :
    ∀ l : List PointD, ∀ acc : List PointI,
      (l.foldl (fun r p => RegionI.AddPoint r (d2i p)) ⟨acc⟩ : RegionI) =
        ⟨acc ++ l.map d2i⟩ := by
  intro l
  induction l with
  | nil => simp
  | cons p l ih =>
    intro acc
    rw [List.foldl_cons]
    show (l.foldl (fun r p => RegionI.AddPoint r (d2i p)) ⟨acc ++ [d2i p]⟩ : RegionI) = _
    rw [ih]
    simp

theorem addRegionToTree_eq (d2i : PointD → PointI) :
    ∀ polys : List (List PointD), ∀ tree : SpatialTree,
      (polys.foldl
        (fun t polygon =>
          if polygon.isEmpty then t
          else
            let rgn : RegionI :=
              (polygon.drop 1).foldl (fun r p => r.AddPoint (d2i p)) ⟨[]⟩
            SpatialTree.Add t rgn (GetLimitRect rgn))
        tree) = tree ++ insertedRegions d2i polys := by
  intro polys
  induction polys with
  | nil => simp [insertedRegions]
  | cons polygon polys ih =>
    intro tree
    rw [List.foldl_cons]
    by_cases hp : polygon.isEmpty
    · rw [if_pos hp, ih]
      simp [insertedRegions, polyEntry, hp]
    · rw [if_neg hp]
      show (polys.foldl _ (SpatialTree.Add tree _ _)) = _
      rw [ih]
      simp only [region_foldl_addPoint d2i (polygon.drop 1) [], List.nil_append]
      simp [insertedRegions, polyEntry, hp, SpatialTree.Add]

theorem AddRegionToTree_eq_inserted (d2i : PointD → PointI)
    (tree : SpatialTree) (fb : FeatureBuilder) :
    CoastlineFeaturesGenerator.AddRegionToTree d2i tree fb =
      tree ++ insertedRegions d2i fb.polygons :=
  addRegionToTree_eq d2i fb.polygons tree

theorem cellDifference_empty_tree (ir : RegionI → RegionI → List RegionI)
    (d2i : PointD → PointI) (bounds : Cell → ℚ × ℚ × ℚ × ℚ) (c : Cell) :
    cellDifference ir d2i bounds [] c =
      DoDifference.init (cellEnvelope d2i bounds c) := rfl

theorem runQueue_empty_tree (ir : RegionI → RegionI → List RegionI)
    (d2i : PointD → PointI) (bounds : Cell → ℚ × ℚ × ℚ × ℚ) :
    ∀ q : List Cell,
      RegionInCellSplitter.runQueue ir d2i bounds [] q =
        q.map (fun c => (c, DoDifference.init (cellEnvelope d2i bounds c))) := by
  intro q
  induction q with
  | nil => rw [runQueue_nil]; rfl
  | cons c rest ih =>
    have hnc : ¬ (c.level < kHighLevel ∧
        kMaxPoints ≤ (cellDifference ir d2i bounds [] c).GetPointsCount) := by
      rw [cellDifference_empty_tree]
      intro h
      have h4 : (DoDifference.init (cellEnvelope d2i bounds c)).GetPointsCount = 4 := rfl
      rw [h4] at h
      exact absurd h.2 (by norm_num [kMaxPoints])
    rw [runQueue_cons_emit ir d2i bounds [] c rest hnc, ih,
      cellDifference_empty_tree]
    rfl

theorem Process_empty_tree (ir : RegionI → RegionI → List RegionI)
    (d2i : PointD → PointI) (bounds : Cell → ℚ × ℚ × ℚ × ℚ) :
    RegionInCellSplitter.Process ir d2i bounds [] =
      (seedCells kStartLevel).map
        (fun c => (c, DoDifference.init (cellEnvelope d2i bounds c))) :=
  runQueue_empty_tree ir d2i bounds (seedCells kStartLevel)

theorem doAddToTree_foldl (d2i : PointD → PointI) :
    ∀ l : List FeatureBuilder, ∀ st : DoAddToTreeState,
      (l.foldl (DoAddToTree.visit d2i) st).notMergedCoastsCount =
          st.notMergedCoastsCount +
            (l.filter (fun fb => !fb.isGeometryClosed)).length ∧
      (l.foldl (DoAddToTree.visit d2i) st).tree =
          l.foldl
            (fun t fb =>
              if fb.isGeometryClosed then
                CoastlineFeaturesGenerator.AddRegionToTree d2i t fb
              else t)
            st.tree ∧
      (l.foldl (DoAddToTree.visit d2i) st).totalNotMergedCoastsPoints =
          st.totalNotMergedCoastsPoints +
            ((l.filter (fun fb => !fb.isGeometryClosed)).map
              FeatureBuilder.GetPointsCount).sum ∧
      (l.foldl (DoAddToTree.visit d2i) st).log =
          st.log ++
            (l.filter (fun fb => !fb.isGeometryClosed)).map
              (fun fb => (fb.firstOsmId, fb.lastOsmId, fb.GetPointsCount)) := by
  intro l
  induction l with
  | nil => simp
  | cons fb l ih =>
    intro st
    obtain ⟨h₁, h₂, h₃, h₄⟩ := ih (DoAddToTree.visit d2i st fb)
    refine ⟨?_, ?_, ?_, ?_⟩
    · rw [List.foldl_cons, h₁]
      by_cases hfb : fb.isGeometryClosed
      · simp [DoAddToTree.visit, hfb]
      · simp [DoAddToTree.visit, hfb]
        omega
    · rw [List.foldl_cons, h₂, List.foldl_cons]
      by_cases hfb : fb.isGeometryClosed
      · simp [DoAddToTree.visit, hfb]
      · simp [DoAddToTree.visit, hfb]
    · rw [List.foldl_cons, h₃]
      by_cases hfb : fb.isGeometryClosed
      · simp [DoAddToTree.visit, hfb]
      · simp [DoAddToTree.visit, hfb]
        omega
    · rw [List.foldl_cons, h₄]
      by_cases hfb : fb.isGeometryClosed
      · simp [DoAddToTree.visit, hfb]
      · simp [DoAddToTree.visit, hfb]

theorem queueMeasure_erase {c : Cell} {fl : List Cell} (h : c ∈ fl) :
    queueMeasure fl = cellWeight c + queueMeasure (fl.erase c) := by
  have hperm : fl.Perm (c :: fl.erase c) := List.perm_cons_erase h
  have := (hperm.map cellWeight).sum_eq
  unfold queueMeasure
  rw [this]
  simp

theorem sysMeasure_lt_of_step {tooBig : Cell → Bool} {s t : SplitterSysState}
    (h : SplitterStep tooBig s t) : sysMeasure t < sysMeasure s := by
  cases h with
  | take c rest fl =>
    simp only [sysMeasure, queueMeasure_cons, List.length_cons]
    omega
  | complete c q fl hmem =>
    have hq := queueMeasure_erase hmem
    by_cases hc : c.level < kHighLevel ∧ tooBig c = true
    · rw [if_pos hc]
      have hch := queueMeasure_children hc.1
      have hcw := cellWeight_of_lt hc.1
      have hp : 1 ≤ 5 ^ (kHighLevel - c.level) := Nat.one_le_pow _ _ (by norm_num)
      simp only [sysMeasure, queueMeasure_append, List.length_append, hch, hq, hcw,
        List.length_cons, List.length_nil]
      omega
    · rw [if_neg hc]
      have hw := cellWeight_pos c
      simp only [sysMeasure, hq]
      omega

/-- Claim C1, counterexample.  The claim says that for a visited region not
fully inside the cell envelope the differencing step REPLACES the first
element of the result list with the output of `intersect_regions` and that
the original envelope is no longer present.  At a concrete state (fresh
envelope) and a region sticking out of it, with a boolean primitive
returning one piece, the code instead appends the piece: the result list
differs from the replacement reading, and the original envelope is still
present and still first. -/
theorem C1_replace_counterexample :
    (DoDifference.init sampleEnv).m_src.IsRectInside outsideRegion.GetRect = false ∧
    (DoDifference.visit irPiece (DoDifference.init sampleEnv) outsideRegion).m_res ≠
      irPiece (DoDifference.init sampleEnv).m_res.headI outsideRegion ++
        (DoDifference.init sampleEnv).m_res.tail ∧
    (DoDifference.visit irPiece (DoDifference.init sampleEnv) outsideRegion).m_res.headI =
      sampleEnv ∧
    sampleEnv ∈ (DoDifference.visit irPiece (DoDifference.init sampleEnv) outsideRegion).m_res :=
  by decide

/-- Claim C1, amended: for every visited region whose bounding rect is not
fully inside the envelope's rect, the differencing step APPENDS the output
of `intersect_regions(result[0], r)` to the result list, and after any fold
of visits starting from the envelope the first slot still holds the
original envelope region. -/
theorem C1_difference_appends_intersection (ir : RegionI → RegionI → List RegionI)
    (env : RegionI) (rs : List RegionI) (s : DoDiffState) (r : RegionI)
    (h : s.m_src.IsRectInside r.GetRect = false) :
    (DoDifference.visit ir s r).m_res = s.m_res ++ ir s.m_res.headI r ∧
    (rs.foldl (DoDifference.visit ir) (DoDifference.init env)).m_res.headI = env ∧
    env ∈ (rs.foldl (DoDifference.visit ir) (DoDifference.init env)).m_res := by
  obtain ⟨hne, hh⟩ :=
    foldl_visit_head ir rs (DoDifference.init env) (by simp [DoDifference.init])
  have hh' : (rs.foldl (DoDifference.visit ir) (DoDifference.init env)).m_res.headI = env := by
    rw [hh]
    rfl
  refine ⟨?_, hh', ?_⟩
  · rw [visit_m_res, if_neg (by simp [h])]
  · cases hr : (rs.foldl (DoDifference.visit ir) (DoDifference.init env)).m_res with
    | nil => exact absurd hr hne
    | cons a t =>
      rw [hr] at hh'
      simp only [List.headI_cons] at hh'
      rw [← hh']
      exact List.mem_cons_self a t

/-- Witness for C1's amended theorem at a concrete input. -/
theorem C1_difference_appends_intersection_witness :
    (DoDifference.visit irPiece (DoDifference.init sampleEnv) outsideRegion).m_res =
      (DoDifference.init sampleEnv).m_res ++
        irPiece (DoDifference.init sampleEnv).m_res.headI outsideRegion ∧
    (([] : List RegionI).foldl (DoDifference.visit irPiece)
      (DoDifference.init sampleEnv)).m_res.headI = sampleEnv ∧
    sampleEnv ∈ (([] : List RegionI).foldl (DoDifference.visit irPiece)
      (DoDifference.init sampleEnv)).m_res :=
  C1_difference_appends_intersection irPiece sampleEnv []
    (DoDifference.init sampleEnv) outsideRegion (by decide)

/-- Claim C2, counterexample.  The claim says a closed polygon is inserted
with the LAST point skipped, keeping the first vertex.  On a concrete
square ring `(0,0),(1,0),(1,1),(0,0)` the code builds the region from the
points with the FIRST point skipped — `(1,0),(1,1),(0,0)` — which differs
from the claim's drop-last reading `(0,0),(1,0),(1,1)`. -/
theorem C2_drop_last_counterexample :
    (CoastlineFeaturesGenerator.AddRegionToTree d2iNum [] fbSquare).map
        (fun e => e.1.points) = [[⟨1, 0⟩, ⟨1, 1⟩, ⟨0, 0⟩]] ∧
    (CoastlineFeaturesGenerator.AddRegionToTree d2iNum [] fbSquare).map
        (fun e => e.1.points) ≠ [(fbSquare.polygons.headI.dropLast).map d2iNum] :=
  by decide

/-- Claim C2, amended: each non-empty polygon of a closed feature builder
is inserted into the tree as a region holding the polygon's points with
the FIRST point skipped (the leading duplicate of the closing vertex), so
the inserted region keeps the polygon's last vertex and drops only the
leading duplicate; closed builders forwarded by the merger during finish
are inserted the same way. -/
theorem C2_insertion_skips_first_point (d2i : PointD → PointI) (tree : SpatialTree)
    (fb : FeatureBuilder) (st : DoAddToTreeState) (hclosed : fb.isGeometryClosed = true) :
    CoastlineFeaturesGenerator.AddRegionToTree d2i tree fb =
      tree ++ insertedRegions d2i fb.polygons ∧
    DoAddToTree.visit d2i st fb =
      { st with tree := CoastlineFeaturesGenerator.AddRegionToTree d2i st.tree fb } := by
  refine ⟨AddRegionToTree_eq_inserted d2i tree fb, ?_⟩
  unfold DoAddToTree.visit
  rw [if_pos hclosed]

/-- Witness for C2's amended theorem at a concrete input. -/
theorem C2_insertion_skips_first_point_witness :
    CoastlineFeaturesGenerator.AddRegionToTree d2iNum [] fbSquare =
      [] ++ insertedRegions d2iNum fbSquare.polygons ∧
    DoAddToTree.visit d2iNum ⟨[], 0, 0, []⟩ fbSquare =
      { tree := CoastlineFeaturesGenerator.AddRegionToTree d2iNum [] fbSquare,
        notMergedCoastsCount := 0, totalNotMergedCoastsPoints := 0, log := [] } :=
  C2_insertion_skips_first_point d2iNum [] fbSquare ⟨[], 0, 0, []⟩ rfl

/-- Claim C7: a visited region whose bounding rect is fully inside the
envelope's rect is appended unchanged to the result list, and no
intersection is computed for it — the step does not depend on the boolean
primitive at all. -/
theorem C7_inside_appended_without_intersection
    (ir ir₂ : RegionI → RegionI → List RegionI) (s : DoDiffState) (r : RegionI)
    (h : s.m_src.IsRectInside r.GetRect = true) :
    (DoDifference.visit ir s r).m_res = s.m_res ++ [r] ∧
    DoDifference.visit ir s r = DoDifference.visit ir₂ s r := by
  constructor
  · rw [visit_m_res, if_pos h]
  · unfold DoDifference.visit
    rw [if_pos h, if_pos h]

/-- Witness for C7 at a concrete input. -/
theorem C7_inside_appended_without_intersection_witness :
    (DoDifference.visit irTriv (DoDifference.init sampleEnv) insideRegion).m_res =
      (DoDifference.init sampleEnv).m_res ++ [insideRegion] ∧
    DoDifference.visit irTriv (DoDifference.init sampleEnv) insideRegion =
      DoDifference.visit irPiece (DoDifference.init sampleEnv) insideRegion :=
  C7_inside_appended_without_intersection irTriv irPiece
    (DoDifference.init sampleEnv) insideRegion (by decide)

/-- Claim C3: for every cell at the front of the work queue, if the cell's
level is strictly below `kHighLevel` and the total point count of the
difference result reaches `kMaxPoints`, the result is discarded and
exactly the four children are appended at the back of the queue; otherwise
the callback receives exactly `(cell, difference)`, once, before the rest
of the queue is processed. -/
theorem C3_subdivide_or_emit (ir : RegionI → RegionI → List RegionI)
    (d2i : PointD → PointI) (bounds : Cell → ℚ × ℚ × ℚ × ℚ) (tree : SpatialTree)
    (c : Cell) (rest : List Cell) :
    (c.level < kHighLevel ∧
        kMaxPoints ≤ (cellDifference ir d2i bounds tree c).GetPointsCount →
      RegionInCellSplitter.runQueue ir d2i bounds tree (c :: rest) =
        RegionInCellSplitter.runQueue ir d2i bounds tree
          (rest ++ [c.Child 0, c.Child 1, c.Child 2, c.Child 3])) ∧
    (¬ (c.level < kHighLevel ∧
        kMaxPoints ≤ (cellDifference ir d2i bounds tree c).GetPointsCount) →
      RegionInCellSplitter.runQueue ir d2i bounds tree (c :: rest) =
        (c, cellDifference ir d2i bounds tree c) ::
          RegionInCellSplitter.runQueue ir d2i bounds tree rest) :=
  ⟨runQueue_cons_split ir d2i bounds tree c rest,
   runQueue_cons_emit ir d2i bounds tree c rest⟩

/-- Witness for C3 at a concrete input: a level-`kHighLevel` cell is never
subdivided, so the callback fires. -/
theorem C3_subdivide_or_emit_witness :
    RegionInCellSplitter.runQueue irTriv d2iTriv boundsTriv [] [(⟨10, 0⟩ : Cell)] =
      ((⟨10, 0⟩ : Cell), cellDifference irTriv d2iTriv boundsTriv [] ⟨10, 0⟩) ::
        RegionInCellSplitter.runQueue irTriv d2iTriv boundsTriv [] [] :=
  (C3_subdivide_or_emit irTriv d2iTriv boundsTriv [] ⟨10, 0⟩ []).2 (by decide)

/-- Claim C4: `Finish` returns `true` iff flushing the merger leaves no
open chain; the final tree extends the previous one by exactly the closed
chains the merger emits, in order; and every remaining open chain is
reported (non-fatally) with its OSM way-id range and point count. -/
theorem C4_finish_success_iff_no_open_chain (d2i : PointD → PointI)
    (doMerge : List FeatureBuilder → List FeatureBuilder) (s : GenState) :
    ((CoastlineFeaturesGenerator.Finish d2i doMerge s).1 = true ↔
      ∀ fb ∈ doMerge s.merger, fb.isGeometryClosed = true) ∧
    (CoastlineFeaturesGenerator.Finish d2i doMerge s).2 =
      (doMerge s.merger).foldl
        (fun t fb =>
          if fb.isGeometryClosed then
            CoastlineFeaturesGenerator.AddRegionToTree d2i t fb
          else t)
        s.tree ∧
    (CoastlineFeaturesGenerator.FinishState d2i doMerge s).log =
      ((doMerge s.merger).filter (fun fb => !fb.isGeometryClosed)).map
        (fun fb => (fb.firstOsmId, fb.lastOsmId, fb.GetPointsCount)) := by
  obtain ⟨h₁, h₂, h₃, h₄⟩ := doAddToTree_foldl d2i (doMerge s.merger) ⟨s.tree, 0, 0, []⟩
  refine ⟨?_, h₂, h₄⟩
  unfold CoastlineFeaturesGenerator.Finish CoastlineFeaturesGenerator.FinishState
  rw [h₁]
  simp [List.length_eq_zero, List.filter_eq_nil_iff]

/-- Sample closed feature builder containing a leading empty polygon. -/
def fbWithEmptyPolygon : FeatureBuilder :=
  { isGeometryClosed := true
    polygons := [([] : List PointD), [((0 : ℚ), (0 : ℚ)), ((1 : ℚ), (1 : ℚ))]] }

/-- Sample closed feature builder like `fbWithEmptyPolygon` but without
the empty polygon. -/
def fbNoEmptyPolygon : FeatureBuilder :=
  { isGeometryClosed := true
    polygons := [[((0 : ℚ), (0 : ℚ)), ((1 : ℚ), (1 : ℚ))]] }

/-- Claim C10: an empty polygon inside a closed feature builder is skipped
silently — the tree after insertion is the same as for the builder without
the empty polygon, and the remaining polygons are processed normally (the
embedding is a total function, so no error is raised). -/
theorem C10_empty_polygon_skipped (d2i : PointD → PointI) (tree : SpatialTree)
    (fb fb' : FeatureBuilder) (pre post : List (List PointD))
    (h : fb.polygons = pre ++ ([] : List PointD) :: post)
    (h' : fb'.polygons = pre ++ post) :
    CoastlineFeaturesGenerator.AddRegionToTree d2i tree fb =
      CoastlineFeaturesGenerator.AddRegionToTree d2i tree fb' := by
  rw [AddRegionToTree_eq_inserted, AddRegionToTree_eq_inserted, h, h']
  unfold insertedRegions
  simp [polyEntry]

/-- Witness for C10 at a concrete input. -/
theorem C10_empty_polygon_skipped_witness :
    CoastlineFeaturesGenerator.AddRegionToTree d2iTriv [] fbWithEmptyPolygon =
      CoastlineFeaturesGenerator.AddRegionToTree d2iTriv [] fbNoEmptyPolygon :=
  C10_empty_polygon_skipped d2iTriv [] fbWithEmptyPolygon fbNoEmptyPolygon
    [] [[((0 : ℚ), (0 : ℚ)), ((1 : ℚ), (1 : ℚ))]] rfl rfl

theorem seedCells_level_le : ∀ c ∈ seedCells kStartLevel, c.level ≤ kHighLevel := by
  intro c hc
  unfold seedCells at hc
  obtain ⟨i, _, rfl⟩ := List.mem_map.mp hc
  norm_num [Cell.FromBitsAndLevel, kStartLevel, kHighLevel]

/-- Claim C5: every feature emitted by the splitter from a cell strictly
below `kHighLevel` carries at most `kMaxPoints` points; only a feature
whose cell sits at `kHighLevel` can exceed the budget. -/
theorem C5_point_budget (ir : RegionI → RegionI → List RegionI)
    (d2i : PointD → PointI) (i2d : PointI → PointD)
    (bounds : Cell → ℚ × ℚ × ℚ × ℚ) (tree : SpatialTree) :
    ∀ p ∈ RegionInCellSplitter.Process ir d2i bounds tree,
      (p.1.level < kHighLevel →
        (buildFeature i2d p.1 p.2).GetPointsCount ≤ kMaxPoints) ∧
      (kMaxPoints < (buildFeature i2d p.1 p.2).GetPointsCount →
        p.1.level = kHighLevel) := by
  intro p hp
  obtain ⟨hdd, hle, hlt⟩ := runQueue_mem_spec ir d2i bounds tree
    (queueMeasure (seedCells kStartLevel)) (seedCells kStartLevel) le_rfl
    seedCells_level_le p hp
  rw [buildFeature_points_count]
  constructor
  · intro hlow
    have h := hlt hlow
    omega
  · intro hbig
    by_contra hne
    have hlow : p.1.level < kHighLevel := by omega
    have h := hlt hlow
    omega

/-- Witness for C5 at a concrete input: the first seed cell of the empty
planet. -/
theorem C5_point_budget_witness :
    (buildFeature i2dTriv (⟨4, 0⟩ : Cell)
      (DoDifference.init (cellEnvelope d2iTriv boundsTriv ⟨4, 0⟩))).GetPointsCount ≤
      kMaxPoints :=
  (C5_point_budget irTriv d2iTriv i2dTriv boundsTriv []
    ((⟨4, 0⟩ : Cell), DoDifference.init (cellEnvelope d2iTriv boundsTriv ⟨4, 0⟩))
    (by rw [Process_empty_tree]
        exact List.mem_map.mpr ⟨⟨4, 0⟩, by decide, rfl⟩)).1 (by decide)

/-- Claim C8: every feature handed to the output callback has at least one
polygon and at least three points (so the non-empty-geometry checks never
fire), because the difference result list of every accepted cell is
non-empty and still starts with its envelope-derived element, which has
four points. -/
theorem C8_nonempty_geometry (ir : RegionI → RegionI → List RegionI)
    (d2i : PointD → PointI) (i2d : PointI → PointD)
    (bounds : Cell → ℚ × ℚ × ℚ × ℚ) (tree : SpatialTree) :
    ∀ p ∈ RegionInCellSplitter.Process ir d2i bounds tree,
      0 < (buildFeature i2d p.1 p.2).GetPolygonsCount ∧
      3 ≤ (buildFeature i2d p.1 p.2).GetPointsCount ∧
      p.2.m_res ≠ [] ∧
      p.2.m_res.headI = cellEnvelope d2i bounds p.1 := by
  intro p hp
  obtain ⟨hdd, hle, hlt⟩ := runQueue_mem_spec ir d2i bounds tree
    (queueMeasure (seedCells kStartLevel)) (seedCells kStartLevel) le_rfl
    seedCells_level_le p hp
  have hhead := cellDifference_head ir d2i bounds tree p.1
  have hpts := cellDifference_points_ge ir d2i bounds tree p.1
  refine ⟨?_, ?_, ?_, ?_⟩
  · rw [buildFeature_polygons_count, hdd]
    exact List.length_pos.mpr hhead.1
  · rw [buildFeature_points_count, hdd]
    omega
  · rw [hdd]
    exact hhead.1
  · rw [hdd]
    exact hhead.2

/-- Witness for C8 at a concrete input. -/
theorem C8_nonempty_geometry_witness :
    0 < (buildFeature i2dTriv (⟨4, 0⟩ : Cell)
        (DoDifference.init (cellEnvelope d2iTriv boundsTriv ⟨4, 0⟩))).GetPolygonsCount ∧
    3 ≤ (buildFeature i2dTriv (⟨4, 0⟩ : Cell)
        (DoDifference.init (cellEnvelope d2iTriv boundsTriv ⟨4, 0⟩))).GetPointsCount ∧
    (DoDifference.init (cellEnvelope d2iTriv boundsTriv ⟨4, 0⟩)).m_res ≠ [] ∧
    (DoDifference.init (cellEnvelope d2iTriv boundsTriv ⟨4, 0⟩)).m_res.headI =
      cellEnvelope d2iTriv boundsTriv ⟨4, 0⟩ :=
  C8_nonempty_geometry irTriv d2iTriv i2dTriv boundsTriv []
    ((⟨4, 0⟩ : Cell), DoDifference.init (cellEnvelope d2iTriv boundsTriv ⟨4, 0⟩))
    (by rw [Process_empty_tree]
        exact List.mem_map.mpr ⟨⟨4, 0⟩, by decide, rfl⟩)

/-- Claim C6: with no `process` call (empty tree, empty merger input and a
merger that emits nothing from nothing), `Finish` succeeds, and the
splitter emits exactly `4 ^ kStartLevel = 256` features — one per seed
cell — each holding a single polygon made of the four quantized corners of
its cell. -/
theorem C6_empty_planet (ir : RegionI → RegionI → List RegionI)
    (d2i : PointD → PointI) (i2d : PointI → PointD)
    (bounds : Cell → ℚ × ℚ × ℚ × ℚ)
    (doMerge : List FeatureBuilder → List FeatureBuilder)
    (h : doMerge [] = []) :
    (CoastlineFeaturesGenerator.Finish d2i doMerge ⟨[], []⟩).1 = true ∧
    CoastlineFeaturesGenerator.GetFeatures ir d2i i2d bounds [] =
      (seedCells kStartLevel).map
        (fun c => buildFeature i2d c (DoDifference.init (cellEnvelope d2i bounds c))) ∧
    (CoastlineFeaturesGenerator.GetFeatures ir d2i i2d bounds []).length = 256 ∧
    Cell.TotalCellsOnLevel kStartLevel = 256 ∧
    ∀ fb ∈ CoastlineFeaturesGenerator.GetFeatures ir d2i i2d bounds [],
      ∃ c, c ∈ seedCells kStartLevel ∧
        fb.polygons = [(cellCorners bounds c).map (fun p => i2d (d2i p))] := by
  have hfeat : CoastlineFeaturesGenerator.GetFeatures ir d2i i2d bounds [] =
      (seedCells kStartLevel).map
        (fun c => buildFeature i2d c (DoDifference.init (cellEnvelope d2i bounds c))) := by
    unfold CoastlineFeaturesGenerator.GetFeatures
    rw [Process_empty_tree, List.map_map]
    rfl
  refine ⟨?_, hfeat, ?_, by norm_num [Cell.TotalCellsOnLevel, kStartLevel], ?_⟩
  · simp [CoastlineFeaturesGenerator.Finish, CoastlineFeaturesGenerator.FinishState, h]
  · rw [hfeat]
    simp [seedCells]
    norm_num [Cell.TotalCellsOnLevel, kStartLevel]
  · intro fb hfb
    rw [hfeat] at hfb
    obtain ⟨c, hc, rfl⟩ := List.mem_map.mp hfb
    refine ⟨c, hc, ?_⟩
    rw [buildFeature_polygons]
    simp [DoDifference.init, cellEnvelope, List.map_map, Function.comp_def]

/-- Witness for C6, instantiated with the identity merger flush. -/
theorem C6_empty_planet_witness :
    (CoastlineFeaturesGenerator.Finish d2iTriv id ⟨[], []⟩).1 = true ∧
    CoastlineFeaturesGenerator.GetFeatures irTriv d2iTriv i2dTriv boundsTriv [] =
      (seedCells kStartLevel).map
        (fun c =>
          buildFeature i2dTriv c (DoDifference.init (cellEnvelope d2iTriv boundsTriv c))) ∧
    (CoastlineFeaturesGenerator.GetFeatures irTriv d2iTriv i2dTriv boundsTriv []).length =
      256 ∧
    Cell.TotalCellsOnLevel kStartLevel = 256 ∧
    ∀ fb ∈ CoastlineFeaturesGenerator.GetFeatures irTriv d2iTriv i2dTriv boundsTriv [],
      ∃ c, c ∈ seedCells kStartLevel ∧
        fb.polygons = [(cellCorners boundsTriv c).map (fun p => i2dTriv (d2iTriv p))] :=
  C6_empty_planet irTriv d2iTriv i2dTriv boundsTriv id rfl

/-- Claim C9: the worker pool always terminates — the step relation of the
splitter's transition system admits no infinite run, whatever the
over-budget predicate (hence whatever the indexed regions) — and a worker
exits exactly when the queue is empty and no worker is processing a task;
moreover the system is stuck exactly in that situation, so a run from the
seed queue ends with an empty queue and idle workers. -/
theorem C9_splitter_terminates (tooBig : Cell → Bool) :
    WellFounded (fun t s : SplitterSysState => SplitterStep tooBig s t) ∧
    (∀ s : SplitterSysState, workerExits s ↔ s.listTasks = [] ∧ s.inFlight = []) ∧
    (∀ s : SplitterSysState,
      (¬ ∃ t, SplitterStep tooBig s t) ↔ s.listTasks = [] ∧ s.inFlight = []) := by
  refine ⟨?_, ?_, ?_⟩
  · exact Subrelation.wf (fun {t s} hstep => sysMeasure_lt_of_step hstep)
      (InvImage.wf sysMeasure wellFounded_lt)
  · intro s
    unfold workerExits splitterWaitDone
    constructor
    · rintro ⟨hw, ht⟩
      refine ⟨ht, ?_⟩
      rcases hw with h | h
      · exact absurd ht h
      · exact List.length_eq_zero.mp h
    · rintro ⟨ht, hf⟩
      exact ⟨Or.inr (by rw [hf]; rfl), ht⟩
  · intro s
    obtain ⟨tasks, fl⟩ := s
    constructor
    · intro hno
      constructor
      · cases htq : tasks with
        | nil => rfl
        | cons c rest =>
          subst htq
          exact absurd ⟨⟨rest, c :: fl⟩, SplitterStep.take c rest fl⟩ hno
      · cases hfq : fl with
        | nil => rfl
        | cons c rest =>
          subst hfq
          exact absurd
            ⟨_, SplitterStep.complete c tasks (c :: rest) (List.mem_cons_self c rest)⟩
            hno
    · rintro ⟨ht, hf⟩ ⟨t, hstep⟩
      subst ht
      subst hf
      cases hstep with
      | complete c q fl h => exact absurd h (List.not_mem_nil c)
